import Mathlib

/-!
# Verification of the TA office simulation (`src/ta_simulation.c`)

A shallow embedding of the pthread program as an interleaving transition
system.  One TA thread and `n` student threads share four counting
semaphores (`waiting_room_chairs_sem`, `student_present_for_ta_sem`,
`ta_ready_for_student_sem`, `consultation_finished_sem`), a mutex
(`count_mutex`) and an `int` counter (`num_students_in_chairs`).
Semaphores are modelled as natural-number counters (`sem_wait` is enabled
only when the counter is positive), the mutex as an optional owner, the
counter as an integer, and each thread as a program counter.  A scheduler
is a list of thread labels; executions are the runs of all schedules from
the initial state.
-/

set_option autoImplicit false

namespace TaSim

/-- Program counter of the TA thread (`ta_thread_func`): the loop body is
`sem_wait(&student_present_for_ta_sem)`; `sem_post(&ta_ready_for_student_sem)`;
`sleep(help_duration)`; `sem_post(&consultation_finished_sem)`. -/
inductive TaPc
  | waitPresence
  | postSummon
  | helping
  | postCompletion
  deriving DecidableEq, Repr

/-- Program counter of a student thread (`student_thread_func`), one value
per statement touching shared state.  `arriving` is the initial random
sleep; the success branch is `lockA` (`pthread_mutex_lock`), `check`
(`num_students_in_chairs < MAX_CHAIRS`), `incr` (`num_students_in_chairs++`),
`takeChair` (`sem_wait(&waiting_room_chairs_sem)`, executed while the mutex
is held), `unlockA`, `postPresence`, `waitSummon`, `freeChair`
(`sem_post(&waiting_room_chairs_sem)`), `lockB`, `decr`, `unlockB`,
`waitCompletion`, `doneServed`; the failure branch is `balkUnlock`
(`pthread_mutex_unlock` in the `else`), `doneBalked`. -/
inductive SPc
  | arriving
  | lockA
  | check
  | incr
  | takeChair
  | unlockA
  | postPresence
  | waitSummon
  | freeChair
  | lockB
  | decr
  | unlockB
  | waitCompletion
  | doneServed
  | balkUnlock
  | doneBalked
  deriving DecidableEq, Repr

/-- Global state of the simulation: the four semaphore counters, the
`num_students_in_chairs` counter (an `int` in C, hence `Int`), the mutex
owner (`none` = unlocked, `some i` = held by student `i`), the TA program
counter together with its completed-iteration count, and the list of
student program counters. -/
structure St where
  chairs : Nat
  presence : Nat
  summon : Nat
  completion : Nat
  occupied : Int
  lockOwner : Option Nat
  taPc : TaPc
  taIter : Nat
  students : List SPc
  deriving DecidableEq, Repr

/-- Initial state built by `main`: `sem_init(&waiting_room_chairs_sem, 0, MAX_CHAIRS)`
and the three handshake semaphores at `0`, `num_students_in_chairs = 0`,
mutex unlocked, the TA at the top of its loop and every student about to
perform its arrival sleep. -/
def init (cap n : Nat) : St :=
  { chairs := cap, presence := 0, summon := 0, completion := 0
    occupied := 0, lockOwner := none
    taPc := .waitPresence, taIter := 0
    students := List.replicate n .arriving }

/-- One step of the TA thread.  `sem_wait` on `presence` is enabled only
when the counter is positive; the `sleep(help_duration)` is the `helping`
step (it touches no shared state). -/
def taStep (st : St) : Option St :=
  match st.taPc with
  | .waitPresence =>
      if 0 < st.presence then
        some { st with presence := st.presence - 1, taPc := .postSummon }
      else none
  | .postSummon => some { st with summon := st.summon + 1, taPc := .helping }
  | .helping => some { st with taPc := .postCompletion }
  | .postCompletion =>
      some { st with completion := st.completion + 1, taPc := .waitPresence,
                     taIter := st.taIter + 1 }

/-- One step of student `i` (parameter `cap` is `MAX_CHAIRS`).  Lock steps
are enabled only when the mutex is free, semaphore waits only when the
counter is positive; a terminal student takes no step. -/
def stuStep (cap : Nat) (i : Nat) (st : St) : Option St :=
  match st.students[i]? with
  | none => none
  | some pc =>
    match pc with
    | .arriving => some { st with students := st.students.set i .lockA }
    | .lockA =>
        if st.lockOwner = none then
          some { st with students := st.students.set i .check,
                         lockOwner := some i }
        else none
    | .check =>
        if st.occupied < (cap : Int) then
          some { st with students := st.students.set i .incr }
        else
          some { st with students := st.students.set i .balkUnlock }
    | .incr =>
        some { st with students := st.students.set i .takeChair,
                       occupied := st.occupied + 1 }
    | .takeChair =>
        if 0 < st.chairs then
          some { st with students := st.students.set i .unlockA,
                         chairs := st.chairs - 1 }
        else none
    | .unlockA =>
        some { st with students := st.students.set i .postPresence,
                       lockOwner := none }
    | .postPresence =>
        some { st with students := st.students.set i .waitSummon,
                       presence := st.presence + 1 }
    | .waitSummon =>
        if 0 < st.summon then
          some { st with students := st.students.set i .freeChair,
                         summon := st.summon - 1 }
        else none
    | .freeChair =>
        some { st with students := st.students.set i .lockB,
                       chairs := st.chairs + 1 }
    | .lockB =>
        if st.lockOwner = none then
          some { st with students := st.students.set i .decr,
                         lockOwner := some i }
        else none
    | .decr =>
        some { st with students := st.students.set i .unlockB,
                       occupied := st.occupied - 1 }
    | .unlockB =>
        some { st with students := st.students.set i .waitCompletion,
                       lockOwner := none }
    | .waitCompletion =>
        if 0 < st.completion then
          some { st with students := st.students.set i .doneServed,
                         completion := st.completion - 1 }
        else none
    | .doneServed => none
    | .balkUnlock =>
        some { st with students := st.students.set i .doneBalked,
                       lockOwner := none }
    | .doneBalked => none

/-- Scheduler labels: either the TA thread or student thread `i`. -/
inductive Lbl
  | ta
  | stu (i : Nat)
  deriving DecidableEq, Repr

/-- One step of the thread named by the label. -/
def step (cap : Nat) : Lbl → St → Option St
  | .ta, st => taStep st
  | .stu i, st => stuStep cap i st

/-- Run a schedule: every scheduled step must be enabled. -/
def exec (cap : Nat) : List Lbl → St → Option St
  | [], st => some st
  | l :: ls, st =>
    match step cap l st with
    | none => none
    | some st1 => exec cap ls st1

/-- A state is reachable if some schedule reaches it from the initial
state of a simulation with `cap` chairs and `n` students. -/
def Reachable (cap n : Nat) (st : St) : Prop :=
  ∃ ls, exec cap ls (init cap n) = some st

/-! ### Derived observations on states -/

/-- Student pcs at which the thread holds `count_mutex`. -/
def holdingB : SPc → Bool
  | .check | .incr | .takeChair | .unlockA | .decr | .unlockB | .balkUnlock => true
  | _ => false

/-- Student pcs in the committed window of the admission counter: the
student has executed `num_students_in_chairs++` and not yet executed
`num_students_in_chairs--`. -/
def committedB : SPc → Bool
  | .takeChair | .unlockA | .postPresence | .waitSummon | .freeChair
  | .lockB | .decr => true
  | _ => false

/-- Student pcs at which the student holds a chair slot: it has executed
`sem_wait(&waiting_room_chairs_sem)` and not yet executed the matching
`sem_post`. -/
def chairB : SPc → Bool
  | .unlockA | .postPresence | .waitSummon | .freeChair => true
  | _ => false

/-- Student pcs past the `sem_post(&student_present_for_ta_sem)`. -/
def postedB : SPc → Bool
  | .waitSummon | .freeChair | .lockB | .decr | .unlockB
  | .waitCompletion | .doneServed => true
  | _ => false

/-- Student pcs past the `sem_wait(&ta_ready_for_student_sem)`: the summon
has been consumed. -/
def consumedSummonB : SPc → Bool
  | .freeChair | .lockB | .decr | .unlockB | .waitCompletion | .doneServed => true
  | _ => false

/-- Student pcs past the `sem_wait(&consultation_finished_sem)`. -/
def servedB : SPc → Bool
  | .doneServed => true
  | _ => false

/-- Student pcs on the balk path (the branch taken when
`num_students_in_chairs < MAX_CHAIRS` fails) or not yet at the check. -/
def balkPathB : SPc → Bool
  | .arriving | .lockA | .check | .balkUnlock | .doneBalked => true
  | _ => false

/-- Indicator: the current TA loop iteration has passed its
`sem_wait(&student_present_for_ta_sem)`. -/
def taConsumedInd : TaPc → Nat
  | .waitPresence => 0
  | .postSummon => 1
  | .helping => 1
  | .postCompletion => 1

/-- Indicator: the current TA loop iteration has passed its
`sem_post(&ta_ready_for_student_sem)`. -/
def taSummonInd : TaPc → Nat
  | .waitPresence => 0
  | .postSummon => 0
  | .helping => 1
  | .postCompletion => 1

/-- Number of `presence` units the TA has consumed: one per completed loop
iteration, plus one once the current iteration has passed its
`sem_wait(&student_present_for_ta_sem)`. -/
def presenceConsumed (st : St) : Nat :=
  st.taIter + taConsumedInd st.taPc

/-- Number of `summon` units the TA has posted: one per completed loop
iteration, plus one once the current iteration has passed its
`sem_post(&ta_ready_for_student_sem)`. -/
def summonPosts (st : St) : Nat :=
  st.taIter + taSummonInd st.taPc

/-- Number of `completion` units the TA has posted: one per completed loop
iteration. -/
def completionPosts (st : St) : Nat :=
  st.taIter

/-- Number of `presence` units posted by students. -/
def presencePosted (st : St) : Nat :=
  st.students.countP postedB

/-- `InConsultationState`: the student has consumed its summon, vacated
the chair, and is blocked at `sem_wait(&consultation_finished_sem)`. -/
def inConsultB : SPc → Bool
  | .waitCompletion => true
  | _ => false

/-! ### The C utility `random_int`

`random_int(min, max)` swaps its arguments when `min > max` and returns
`(rand() % (max - min + 1)) + min`; `rand()` returns a nonnegative value,
modelled as a `Nat` parameter. -/

/-- Shallow embedding of `random_int` from `src/ta_simulation.c`; `r`
stands for the nonnegative value returned by `rand()`. -/
def random_int (r : Nat) (min max : Int) : Int :=
  let p : Int × Int := if min > max then (max, min) else (min, max)
  (r : Int) % (p.2 - p.1 + 1) + p.1

/-! ### Construction interface

The C file has no runtime configuration: `MAX_CHAIRS` and `NUM_STUDENTS`
are compile-time constants and `main` performs no validation.  The spec's
construction interface is therefore modelled from its own words. -/

/-- Modelled from the spec: the configuration error that `newSimulation`
reports on an invalid configuration; no such error type exists in
`src/ta_simulation.c`. -/
inductive ConfigError
  | invalidConfig
  deriving DecidableEq, Repr

/-- A validated simulation configuration (chair capacity and student
count), as produced by the spec's `newSimulation`. -/
structure Simulation where
  chairCapacity : Int
  studentCount : Int
  deriving DecidableEq, Repr

/-- Modelled from the spec: `newSimulation(chairCapacity, studentCount)`
fails fast with a configuration error when `capacity ≤ 0` or
`student count < 0`; `src/ta_simulation.c` has no such constructor (its
configuration is the compile-time constants `MAX_CHAIRS`/`NUM_STUDENTS`). -/
def newSimulation (chairCapacity studentCount : Int) : Except ConfigError Simulation :=
  if chairCapacity ≤ 0 ∨ studentCount < 0 then
    .error .invalidConfig
  else
    .ok { chairCapacity := chairCapacity, studentCount := studentCount }

/-- Modelled from the spec: actors are only ever started from a
successfully constructed `Simulation`; on a construction error no initial
state (hence no actor) is created. -/
def startSimulation (e : Except ConfigError Simulation) : Option St :=
  match e with
  | .error _ => none
  | .ok sim => some (init sim.chairCapacity.toNat sim.studentCount.toNat)

/-! ### Counting lemmas for lists of program counters -/

theorem countP_set_balance {α : Type} (p : α → Bool) :
    ∀ (l : List α) (i : Nat) (a b : α), l[i]? = some a →
      (l.set i b).countP p + (if p a then 1 else 0)
        = l.countP p + (if p b then 1 else 0)
  | [], i, _, _, h => by simp at h
  | x :: xs, 0, a, b, h => by
      rw [List.getElem?_cons_zero] at h
      injection h with h; subst h
      simp only [List.set, List.countP_cons]
      omega
  | x :: xs, i + 1, a, b, h => by
      rw [List.getElem?_cons_succ] at h
      have ih := countP_set_balance p xs i a b h
      simp only [List.set, List.countP_cons]
      omega

theorem countP_set_eq {α : Type} {p : α → Bool} {l : List α} {i : Nat} {a : α}
    (b : α) (h : l[i]? = some a) (hab : p a = p b) :
    (l.set i b).countP p = l.countP p := by
  have hb := countP_set_balance p l i a b h
  rw [hab] at hb
  omega

theorem countP_set_add {α : Type} {p : α → Bool} {l : List α} {i : Nat} {a : α}
    (b : α) (h : l[i]? = some a) (ha : p a = false) (hb : p b = true) :
    (l.set i b).countP p = l.countP p + 1 := by
  have hbal := countP_set_balance p l i a b h
  rw [ha, hb] at hbal
  simp at hbal
  omega

theorem countP_set_sub {α : Type} {p : α → Bool} {l : List α} {i : Nat} {a : α}
    (b : α) (h : l[i]? = some a) (ha : p a = true) (hb : p b = false) :
    l.countP p = (l.set i b).countP p + 1 := by
  have hbal := countP_set_balance p l i a b h
  rw [ha, hb] at hbal
  simp at hbal
  omega

theorem getElem?_set_self {α : Type} {l : List α} {i : Nat} {a : α} (b : α)
    (h : l[i]? = some a) : (l.set i b)[i]? = some b := by
  rw [List.getElem?_set_self', h]
  rfl

theorem getElem?_set_ne {α : Type} {l : List α} {i j : Nat} (b : α)
    (h : j ≠ i) : (l.set i b)[j]? = l[j]? :=
  List.getElem?_set_ne (by omega)

theorem one_le_countP {α : Type} {p : α → Bool} :
    ∀ (l : List α) (i : Nat) (a : α), l[i]? = some a → p a = true →
      1 ≤ l.countP p
  | [], i, _, h, _ => by simp at h
  | x :: xs, 0, a, h, hp => by
      rw [List.getElem?_cons_zero] at h
      injection h with h; subst h
      simp [List.countP_cons, hp]
  | x :: xs, i + 1, a, h, hp => by
      rw [List.getElem?_cons_succ] at h
      have := one_le_countP xs i a h hp
      simp only [List.countP_cons]
      omega

theorem countP_lt_of_witness {α : Type} {p q : α → Bool}
    (hpq : ∀ x, p x = true → q x = true) :
    ∀ (l : List α) (i : Nat) (a : α), l[i]? = some a →
      p a = false → q a = true → l.countP p < l.countP q
  | [], i, _, h, _, _ => by simp at h
  | x :: xs, 0, a, h, hp, hq => by
      rw [List.getElem?_cons_zero] at h
      injection h with h; subst h
      have : xs.countP p ≤ xs.countP q := List.countP_mono_left (fun x _ => hpq x)
      simp [List.countP_cons, hp, hq]
      omega
  | x :: xs, i + 1, a, h, hp, hq => by
      rw [List.getElem?_cons_succ] at h
      have ih := countP_lt_of_witness hpq xs i a h hp hq
      have hx : (if p x then 1 else 0) ≤ (if q x then 1 else 0) := by
        by_cases hpx : p x = true
        · simp [hpx, hpq x hpx]
        · simp [hpx]
      simp only [List.countP_cons]
      omega

theorem countP_replicate_zero {α : Type} {p : α → Bool} {x : α}
    (hx : p x = false) : ∀ n : Nat, (List.replicate n x).countP p = 0
  | 0 => by simp
  | n + 1 => by
      simp [List.replicate, List.countP_cons, hx, countP_replicate_zero hx n]

/-! ### The inductive invariant -/

/-- The inductive invariant of the transition system.  `ownerHolds` and
`holdsOwner` say the mutex owner is exactly the student inside the
critical sections; `occEq` says `num_students_in_chairs` counts the
students between their `++` and their `--`; `occLe` bounds it by the
capacity; `incrLt` records that a student about to increment saw the
guard succeed; `chairsEq` is the chair-semaphore accounting; `presEq`,
`summonEq` and `compEq` are the handshake-semaphore accountings. -/
structure Inv (cap : Nat) (st : St) : Prop where
  ownerHolds : ∀ j, st.lockOwner = some j →
    ∃ pc, st.students[j]? = some pc ∧ holdingB pc = true
  holdsOwner : ∀ (j : Nat) (pc : SPc), st.students[j]? = some pc → holdingB pc = true →
    st.lockOwner = some j
  occEq : st.occupied = (st.students.countP committedB : Int)
  occLe : st.students.countP committedB ≤ cap
  incrLt : ∀ j : Nat, st.students[j]? = some .incr →
    st.students.countP committedB < cap
  chairsEq : st.chairs + st.students.countP chairB = cap
  presEq : st.presence + presenceConsumed st = st.students.countP postedB
  summonEq : st.summon + st.students.countP consumedSummonB = summonPosts st
  compEq : st.completion + st.students.countP servedB = st.taIter

theorem ownerHolds_of_set {l : List SPc} {ow : Option Nat} {i : Nat} {a : SPc}
    (b : SPc)
    (H : ∀ j, ow = some j → ∃ pc, l[j]? = some pc ∧ holdingB pc = true)
    (hget : l[i]? = some a)
    (hab : holdingB a = true → holdingB b = true) :
    ∀ j, ow = some j → ∃ pc, (l.set i b)[j]? = some pc ∧ holdingB pc = true := by
  intro j hj
  obtain ⟨pc, hpc, hh⟩ := H j hj
  by_cases hji : j = i
  · subst hji
    rw [hget] at hpc
    injection hpc with hpc
    subst hpc
    exact ⟨b, getElem?_set_self _ hget, hab hh⟩
  · exact ⟨pc, by rw [getElem?_set_ne _ hji]; exact hpc, hh⟩

theorem holdsOwner_of_set {l : List SPc} {ow : Option Nat} {i : Nat} {a : SPc}
    (b : SPc)
    (H : ∀ (j : Nat) (pc : SPc), l[j]? = some pc → holdingB pc = true → ow = some j)
    (hget : l[i]? = some a)
    (hba : holdingB b = true → ow = some i) :
    ∀ (j : Nat) (pc : SPc), (l.set i b)[j]? = some pc → holdingB pc = true → ow = some j := by
  intro j pc hj hh
  by_cases hji : j = i
  · subst hji
    rw [getElem?_set_self _ hget] at hj
    injection hj with hj
    subst hj
    exact hba hh
  · rw [getElem?_set_ne _ hji] at hj
    exact H j pc hj hh

theorem holdsOwner_acquire {l : List SPc} {ow : Option Nat} {i : Nat} {a : SPc}
    (b : SPc)
    (H : ∀ (j : Nat) (pc : SPc), l[j]? = some pc → holdingB pc = true → ow = some j)
    (hget : l[i]? = some a) (how : ow = none) :
    ∀ (j : Nat) (pc : SPc), (l.set i b)[j]? = some pc → holdingB pc = true →
      (some i : Option Nat) = some j := by
  intro j pc hj hh
  by_cases hji : j = i
  · subst hji; rfl
  · rw [getElem?_set_ne _ hji] at hj
    have hc := H j pc hj hh
    rw [how] at hc
    cases hc

theorem no_holding_after_release {l : List SPc} {ow : Option Nat} {i : Nat}
    {a : SPc} (b : SPc)
    (H : ∀ (j : Nat) (pc : SPc), l[j]? = some pc → holdingB pc = true → ow = some j)
    (hget : l[i]? = some a) (how : ow = some i) (hb : holdingB b = false) :
    ∀ (j : Nat) (pc : SPc), (l.set i b)[j]? = some pc → holdingB pc = true → False := by
  intro j pc hj hh
  by_cases hji : j = i
  · subst hji
    rw [getElem?_set_self _ hget] at hj
    injection hj with hj
    subst hj
    rw [hb] at hh
    cases hh
  · rw [getElem?_set_ne _ hji] at hj
    have hc := H j pc hj hh
    rw [how] at hc
    injection hc with hc
    exact hji hc.symm

theorem incrLt_of_set {cap : Nat} {l : List SPc} {i : Nat} {a : SPc} (b : SPc)
    (H : ∀ j : Nat, l[j]? = some .incr → l.countP committedB < cap)
    (hget : l[i]? = some a) (hb : b ≠ SPc.incr)
    (hcnt : (l.set i b).countP committedB = l.countP committedB) :
    ∀ j : Nat, (l.set i b)[j]? = some .incr →
      (l.set i b).countP committedB < cap := by
  intro j hj
  rw [hcnt]
  by_cases hji : j = i
  · subst hji
    rw [getElem?_set_self _ hget] at hj
    injection hj with hj
    exact absurd hj hb
  · rw [getElem?_set_ne _ hji] at hj
    exact H j hj

theorem incrLt_vacuous {l : List SPc} {ow : Option Nat} {i : Nat} {a : SPc}
    (b : SPc)
    (H : ∀ (j : Nat) (pc : SPc), l[j]? = some pc → holdingB pc = true → ow = some j)
    (hget : l[i]? = some a) (how : ow = some i) (hb : b ≠ SPc.incr) :
    ∀ j : Nat, (l.set i b)[j]? = some .incr → False := by
  intro j hj
  by_cases hji : j = i
  · subst hji
    rw [getElem?_set_self _ hget] at hj
    injection hj with hj
    exact hb hj
  · rw [getElem?_set_ne _ hji] at hj
    have hc := H j .incr hj rfl
    rw [how] at hc
    injection hc with hc
    exact hji hc.symm

theorem invInit (cap n : Nat) : Inv cap (init cap n) where
  ownerHolds := by intro j hj; simp [init] at hj
  holdsOwner := by
    intro j pc hj hh
    simp only [init] at hj
    have hpc := List.eq_of_mem_replicate (List.getElem?_mem hj)
    subst hpc
    cases hh
  occEq := by simp [init, countP_replicate_zero (show committedB .arriving = false from rfl)]
  occLe := by
    simp [init, countP_replicate_zero (show committedB .arriving = false from rfl)]
  incrLt := by
    intro j hj
    simp only [init] at hj
    have := List.eq_of_mem_replicate (List.getElem?_mem hj)
    cases this
  chairsEq := by
    simp [init, countP_replicate_zero (show chairB .arriving = false from rfl)]
  presEq := by
    simp [init, presenceConsumed, taConsumedInd,
      countP_replicate_zero (show postedB .arriving = false from rfl)]
  summonEq := by
    simp [init, summonPosts, taSummonInd,
      countP_replicate_zero (show consumedSummonB .arriving = false from rfl)]
  compEq := by
    simp [init, countP_replicate_zero (show servedB .arriving = false from rfl)]

/-- Every enabled step of any thread preserves the invariant. -/
theorem invStep {cap : Nat} {l : Lbl} {st st1 : St}
    (hI : Inv cap st) (h : step cap l st = some st1) : Inv cap st1 := by
  obtain ⟨h1, h2, h3, h4, h5, h6, h7, h8, h9⟩ := hI
  cases l with
  | ta =>
      cases hpc : st.taPc with
      | waitPresence =>
          simp only [step, taStep, hpc] at h
          by_cases hp : 0 < st.presence
          · rw [if_pos hp] at h
            injection h with h
            subst h
            refine ⟨h1, h2, h3, h4, h5, h6, ?_, ?_, h9⟩
            · dsimp only [presenceConsumed, taConsumedInd] at h7 ⊢
              rw [hpc] at h7
              dsimp only [taConsumedInd] at h7
              omega
            · dsimp only [summonPosts, taSummonInd] at h8 ⊢
              rw [hpc] at h8
              dsimp only [taSummonInd] at h8
              omega
          · rw [if_neg hp] at h
            cases h
      | postSummon =>
          simp only [step, taStep, hpc] at h
          injection h with h
          subst h
          refine ⟨h1, h2, h3, h4, h5, h6, ?_, ?_, h9⟩
          · dsimp only [presenceConsumed, taConsumedInd] at h7 ⊢
            rw [hpc] at h7
            dsimp only [taConsumedInd] at h7
            omega
          · dsimp only [summonPosts, taSummonInd] at h8 ⊢
            rw [hpc] at h8
            dsimp only [taSummonInd] at h8
            omega
      | helping =>
          simp only [step, taStep, hpc] at h
          injection h with h
          subst h
          refine ⟨h1, h2, h3, h4, h5, h6, ?_, ?_, h9⟩
          · dsimp only [presenceConsumed, taConsumedInd] at h7 ⊢
            rw [hpc] at h7
            dsimp only [taConsumedInd] at h7
            omega
          · dsimp only [summonPosts, taSummonInd] at h8 ⊢
            rw [hpc] at h8
            dsimp only [taSummonInd] at h8
            omega
      | postCompletion =>
          simp only [step, taStep, hpc] at h
          injection h with h
          subst h
          refine ⟨h1, h2, h3, h4, h5, h6, ?_, ?_, ?_⟩
          · dsimp only [presenceConsumed, taConsumedInd] at h7 ⊢
            rw [hpc] at h7
            dsimp only [taConsumedInd] at h7
            omega
          · dsimp only [summonPosts, taSummonInd] at h8 ⊢
            rw [hpc] at h8
            dsimp only [taSummonInd] at h8
            omega
          · dsimp only
            omega
  | stu i =>
      simp only [step] at h
      cases hget : st.students[i]? with
      | none => simp [stuStep, hget] at h
      | some pc =>
          cases pc with
          | arriving =>
              simp only [stuStep, hget] at h
              injection h with h
              subst h
              have hcom := countP_set_eq (p := committedB) SPc.lockA hget rfl
              have hch := countP_set_eq (p := chairB) SPc.lockA hget rfl
              have hpo := countP_set_eq (p := postedB) SPc.lockA hget rfl
              have hcs := countP_set_eq (p := consumedSummonB) SPc.lockA hget rfl
              have hsv := countP_set_eq (p := servedB) SPc.lockA hget rfl
              refine ⟨?_, ?_, ?_, ?_, ?_, ?_, ?_, ?_, ?_⟩
              · exact ownerHolds_of_set SPc.lockA h1 hget
                  (fun hh => absurd hh (by decide))
              · exact holdsOwner_of_set SPc.lockA h2 hget
                  (fun hb => absurd hb (by decide))
              · dsimp only; rw [hcom]; exact h3
              · dsimp only; rw [hcom]; exact h4
              · exact incrLt_of_set SPc.lockA h5 hget (by decide) hcom
              · dsimp only; rw [hch]; exact h6
              · dsimp only; rw [hpo]; exact h7
              · dsimp only; rw [hcs]; exact h8
              · dsimp only; rw [hsv]; exact h9
          | lockA =>
              simp only [stuStep, hget] at h
              by_cases how : st.lockOwner = none
              · rw [if_pos how] at h
                injection h with h
                subst h
                have hcom := countP_set_eq (p := committedB) SPc.check hget rfl
                have hch := countP_set_eq (p := chairB) SPc.check hget rfl
                have hpo := countP_set_eq (p := postedB) SPc.check hget rfl
                have hcs := countP_set_eq (p := consumedSummonB) SPc.check hget rfl
                have hsv := countP_set_eq (p := servedB) SPc.check hget rfl
                refine ⟨?_, ?_, ?_, ?_, ?_, ?_, ?_, ?_, ?_⟩
                · intro j hj
                  injection hj with hj
                  subst hj
                  exact ⟨SPc.check, getElem?_set_self _ hget, rfl⟩
                · exact holdsOwner_acquire SPc.check h2 hget how
                · dsimp only; rw [hcom]; exact h3
                · dsimp only; rw [hcom]; exact h4
                · exact incrLt_of_set SPc.check h5 hget (by decide) hcom
                · dsimp only; rw [hch]; exact h6
                · dsimp only; rw [hpo]; exact h7
                · dsimp only; rw [hcs]; exact h8
                · dsimp only; rw [hsv]; exact h9
              · rw [if_neg how] at h
                cases h
          | check =>
              simp only [stuStep, hget] at h
              by_cases hlt : st.occupied < (cap : Int)
              · rw [if_pos hlt] at h
                injection h with h
                subst h
                have hcom := countP_set_eq (p := committedB) SPc.incr hget rfl
                have hch := countP_set_eq (p := chairB) SPc.incr hget rfl
                have hpo := countP_set_eq (p := postedB) SPc.incr hget rfl
                have hcs := countP_set_eq (p := consumedSummonB) SPc.incr hget rfl
                have hsv := countP_set_eq (p := servedB) SPc.incr hget rfl
                refine ⟨?_, ?_, ?_, ?_, ?_, ?_, ?_, ?_, ?_⟩
                · exact ownerHolds_of_set SPc.incr h1 hget (fun _ => rfl)
                · exact holdsOwner_of_set SPc.incr h2 hget
                    (fun _ => h2 i SPc.check hget rfl)
                · dsimp only; rw [hcom]; exact h3
                · dsimp only; rw [hcom]; exact h4
                · intro j hj
                  dsimp only at hj ⊢
                  rw [hcom]
                  by_cases hji : j = i
                  · omega
                  · rw [getElem?_set_ne _ hji] at hj
                    exact h5 j hj
                · dsimp only; rw [hch]; exact h6
                · dsimp only; rw [hpo]; exact h7
                · dsimp only; rw [hcs]; exact h8
                · dsimp only; rw [hsv]; exact h9
              · rw [if_neg hlt] at h
                injection h with h
                subst h
                have hcom := countP_set_eq (p := committedB) SPc.balkUnlock hget rfl
                have hch := countP_set_eq (p := chairB) SPc.balkUnlock hget rfl
                have hpo := countP_set_eq (p := postedB) SPc.balkUnlock hget rfl
                have hcs := countP_set_eq (p := consumedSummonB) SPc.balkUnlock hget rfl
                have hsv := countP_set_eq (p := servedB) SPc.balkUnlock hget rfl
                refine ⟨?_, ?_, ?_, ?_, ?_, ?_, ?_, ?_, ?_⟩
                · exact ownerHolds_of_set SPc.balkUnlock h1 hget (fun _ => rfl)
                · exact holdsOwner_of_set SPc.balkUnlock h2 hget
                    (fun _ => h2 i SPc.check hget rfl)
                · dsimp only; rw [hcom]; exact h3
                · dsimp only; rw [hcom]; exact h4
                · exact incrLt_of_set SPc.balkUnlock h5 hget (by decide) hcom
                · dsimp only; rw [hch]; exact h6
                · dsimp only; rw [hpo]; exact h7
                · dsimp only; rw [hcs]; exact h8
                · dsimp only; rw [hsv]; exact h9
          | incr =>
              simp only [stuStep, hget] at h
              injection h with h
              subst h
              have hcomA := countP_set_add (p := committedB) SPc.takeChair hget rfl rfl
              have hch := countP_set_eq (p := chairB) SPc.takeChair hget rfl
              have hpo := countP_set_eq (p := postedB) SPc.takeChair hget rfl
              have hcs := countP_set_eq (p := consumedSummonB) SPc.takeChair hget rfl
              have hsv := countP_set_eq (p := servedB) SPc.takeChair hget rfl
              have howi : st.lockOwner = some i := h2 i SPc.incr hget rfl
              refine ⟨?_, ?_, ?_, ?_, ?_, ?_, ?_, ?_, ?_⟩
              · exact ownerHolds_of_set SPc.takeChair h1 hget (fun _ => rfl)
              · exact holdsOwner_of_set SPc.takeChair h2 hget (fun _ => howi)
              · dsimp only; rw [hcomA]; push_cast; omega
              · dsimp only
                rw [hcomA]
                have := h5 i hget
                omega
              · intro j hj
                exact (incrLt_vacuous SPc.takeChair h2 hget howi (by decide) j hj).elim
              · dsimp only; rw [hch]; exact h6
              · dsimp only; rw [hpo]; exact h7
              · dsimp only; rw [hcs]; exact h8
              · dsimp only; rw [hsv]; exact h9
          | takeChair =>
              simp only [stuStep, hget] at h
              by_cases hc0 : 0 < st.chairs
              · rw [if_pos hc0] at h
                injection h with h
                subst h
                have hcom := countP_set_eq (p := committedB) SPc.unlockA hget rfl
                have hchA := countP_set_add (p := chairB) SPc.unlockA hget rfl rfl
                have hpo := countP_set_eq (p := postedB) SPc.unlockA hget rfl
                have hcs := countP_set_eq (p := consumedSummonB) SPc.unlockA hget rfl
                have hsv := countP_set_eq (p := servedB) SPc.unlockA hget rfl
                refine ⟨?_, ?_, ?_, ?_, ?_, ?_, ?_, ?_, ?_⟩
                · exact ownerHolds_of_set SPc.unlockA h1 hget (fun _ => rfl)
                · exact holdsOwner_of_set SPc.unlockA h2 hget
                    (fun _ => h2 i SPc.takeChair hget rfl)
                · dsimp only; rw [hcom]; exact h3
                · dsimp only; rw [hcom]; exact h4
                · exact incrLt_of_set SPc.unlockA h5 hget (by decide) hcom
                · dsimp only; rw [hchA]; omega
                · dsimp only; rw [hpo]; exact h7
                · dsimp only; rw [hcs]; exact h8
                · dsimp only; rw [hsv]; exact h9
              · rw [if_neg hc0] at h
                cases h
          | unlockA =>
              simp only [stuStep, hget] at h
              injection h with h
              subst h
              have hcom := countP_set_eq (p := committedB) SPc.postPresence hget rfl
              have hch := countP_set_eq (p := chairB) SPc.postPresence hget rfl
              have hpo := countP_set_eq (p := postedB) SPc.postPresence hget rfl
              have hcs := countP_set_eq (p := consumedSummonB) SPc.postPresence hget rfl
              have hsv := countP_set_eq (p := servedB) SPc.postPresence hget rfl
              have howi : st.lockOwner = some i := h2 i SPc.unlockA hget rfl
              refine ⟨?_, ?_, ?_, ?_, ?_, ?_, ?_, ?_, ?_⟩
              · exact fun j hj => Option.noConfusion hj
              · intro j pc hj hh
                exact (no_holding_after_release SPc.postPresence h2 hget howi
                  (by decide) j pc hj hh).elim
              · dsimp only; rw [hcom]; exact h3
              · dsimp only; rw [hcom]; exact h4
              · exact incrLt_of_set SPc.postPresence h5 hget (by decide) hcom
              · dsimp only; rw [hch]; exact h6
              · dsimp only; rw [hpo]; exact h7
              · dsimp only; rw [hcs]; exact h8
              · dsimp only; rw [hsv]; exact h9
          | postPresence =>
              simp only [stuStep, hget] at h
              injection h with h
              subst h
              have hcom := countP_set_eq (p := committedB) SPc.waitSummon hget rfl
              have hch := countP_set_eq (p := chairB) SPc.waitSummon hget rfl
              have hpoA := countP_set_add (p := postedB) SPc.waitSummon hget rfl rfl
              have hcs := countP_set_eq (p := consumedSummonB) SPc.waitSummon hget rfl
              have hsv := countP_set_eq (p := servedB) SPc.waitSummon hget rfl
              refine ⟨?_, ?_, ?_, ?_, ?_, ?_, ?_, ?_, ?_⟩
              · exact ownerHolds_of_set SPc.waitSummon h1 hget
                  (fun hh => absurd hh (by decide))
              · exact holdsOwner_of_set SPc.waitSummon h2 hget
                  (fun hb => absurd hb (by decide))
              · dsimp only; rw [hcom]; exact h3
              · dsimp only; rw [hcom]; exact h4
              · exact incrLt_of_set SPc.waitSummon h5 hget (by decide) hcom
              · dsimp only; rw [hch]; exact h6
              · dsimp only [presenceConsumed] at h7 ⊢
                rw [hpoA]
                omega
              · dsimp only; rw [hcs]; exact h8
              · dsimp only; rw [hsv]; exact h9
          | waitSummon =>
              simp only [stuStep, hget] at h
              by_cases hs0 : 0 < st.summon
              · rw [if_pos hs0] at h
                injection h with h
                subst h
                have hcom := countP_set_eq (p := committedB) SPc.freeChair hget rfl
                have hch := countP_set_eq (p := chairB) SPc.freeChair hget rfl
                have hpo := countP_set_eq (p := postedB) SPc.freeChair hget rfl
                have hcsA := countP_set_add (p := consumedSummonB) SPc.freeChair hget rfl rfl
                have hsv := countP_set_eq (p := servedB) SPc.freeChair hget rfl
                refine ⟨?_, ?_, ?_, ?_, ?_, ?_, ?_, ?_, ?_⟩
                · exact ownerHolds_of_set SPc.freeChair h1 hget
                    (fun hh => absurd hh (by decide))
                · exact holdsOwner_of_set SPc.freeChair h2 hget
                    (fun hb => absurd hb (by decide))
                · dsimp only; rw [hcom]; exact h3
                · dsimp only; rw [hcom]; exact h4
                · exact incrLt_of_set SPc.freeChair h5 hget (by decide) hcom
                · dsimp only; rw [hch]; exact h6
                · dsimp only; rw [hpo]; exact h7
                · dsimp only [summonPosts] at h8 ⊢
                  rw [hcsA]
                  omega
                · dsimp only; rw [hsv]; exact h9
              · rw [if_neg hs0] at h
                cases h
          | freeChair =>
              simp only [stuStep, hget] at h
              injection h with h
              subst h
              have hcom := countP_set_eq (p := committedB) SPc.lockB hget rfl
              have hchS := countP_set_sub (p := chairB) SPc.lockB hget rfl rfl
              have hpo := countP_set_eq (p := postedB) SPc.lockB hget rfl
              have hcs := countP_set_eq (p := consumedSummonB) SPc.lockB hget rfl
              have hsv := countP_set_eq (p := servedB) SPc.lockB hget rfl
              refine ⟨?_, ?_, ?_, ?_, ?_, ?_, ?_, ?_, ?_⟩
              · exact ownerHolds_of_set SPc.lockB h1 hget
                  (fun hh => absurd hh (by decide))
              · exact holdsOwner_of_set SPc.lockB h2 hget
                  (fun hb => absurd hb (by decide))
              · dsimp only; rw [hcom]; exact h3
              · dsimp only; rw [hcom]; exact h4
              · exact incrLt_of_set SPc.lockB h5 hget (by decide) hcom
              · dsimp only; omega
              · dsimp only; rw [hpo]; exact h7
              · dsimp only; rw [hcs]; exact h8
              · dsimp only; rw [hsv]; exact h9
          | lockB =>
              simp only [stuStep, hget] at h
              by_cases how : st.lockOwner = none
              · rw [if_pos how] at h
                injection h with h
                subst h
                have hcom := countP_set_eq (p := committedB) SPc.decr hget rfl
                have hch := countP_set_eq (p := chairB) SPc.decr hget rfl
                have hpo := countP_set_eq (p := postedB) SPc.decr hget rfl
                have hcs := countP_set_eq (p := consumedSummonB) SPc.decr hget rfl
                have hsv := countP_set_eq (p := servedB) SPc.decr hget rfl
                refine ⟨?_, ?_, ?_, ?_, ?_, ?_, ?_, ?_, ?_⟩
                · intro j hj
                  injection hj with hj
                  subst hj
                  exact ⟨SPc.decr, getElem?_set_self _ hget, rfl⟩
                · exact holdsOwner_acquire SPc.decr h2 hget how
                · dsimp only; rw [hcom]; exact h3
                · dsimp only; rw [hcom]; exact h4
                · exact incrLt_of_set SPc.decr h5 hget (by decide) hcom
                · dsimp only; rw [hch]; exact h6
                · dsimp only; rw [hpo]; exact h7
                · dsimp only; rw [hcs]; exact h8
                · dsimp only; rw [hsv]; exact h9
              · rw [if_neg how] at h
                cases h
          | decr =>
              simp only [stuStep, hget] at h
              injection h with h
              subst h
              have hcomS := countP_set_sub (p := committedB) SPc.unlockB hget rfl rfl
              have hch := countP_set_eq (p := chairB) SPc.unlockB hget rfl
              have hpo := countP_set_eq (p := postedB) SPc.unlockB hget rfl
              have hcs := countP_set_eq (p := consumedSummonB) SPc.unlockB hget rfl
              have hsv := countP_set_eq (p := servedB) SPc.unlockB hget rfl
              have howi : st.lockOwner = some i := h2 i SPc.decr hget rfl
              refine ⟨?_, ?_, ?_, ?_, ?_, ?_, ?_, ?_, ?_⟩
              · exact ownerHolds_of_set SPc.unlockB h1 hget (fun _ => rfl)
              · exact holdsOwner_of_set SPc.unlockB h2 hget (fun _ => howi)
              · dsimp only; omega
              · dsimp only; omega
              · intro j hj
                exact (incrLt_vacuous SPc.unlockB h2 hget howi (by decide) j hj).elim
              · dsimp only; rw [hch]; exact h6
              · dsimp only; rw [hpo]; exact h7
              · dsimp only; rw [hcs]; exact h8
              · dsimp only; rw [hsv]; exact h9
          | unlockB =>
              simp only [stuStep, hget] at h
              injection h with h
              subst h
              have hcom := countP_set_eq (p := committedB) SPc.waitCompletion hget rfl
              have hch := countP_set_eq (p := chairB) SPc.waitCompletion hget rfl
              have hpo := countP_set_eq (p := postedB) SPc.waitCompletion hget rfl
              have hcs := countP_set_eq (p := consumedSummonB) SPc.waitCompletion hget rfl
              have hsv := countP_set_eq (p := servedB) SPc.waitCompletion hget rfl
              have howi : st.lockOwner = some i := h2 i SPc.unlockB hget rfl
              refine ⟨?_, ?_, ?_, ?_, ?_, ?_, ?_, ?_, ?_⟩
              · exact fun j hj => Option.noConfusion hj
              · intro j pc hj hh
                exact (no_holding_after_release SPc.waitCompletion h2 hget howi
                  (by decide) j pc hj hh).elim
              · dsimp only; rw [hcom]; exact h3
              · dsimp only; rw [hcom]; exact h4
              · exact incrLt_of_set SPc.waitCompletion h5 hget (by decide) hcom
              · dsimp only; rw [hch]; exact h6
              · dsimp only; rw [hpo]; exact h7
              · dsimp only; rw [hcs]; exact h8
              · dsimp only; rw [hsv]; exact h9
          | waitCompletion =>
              simp only [stuStep, hget] at h
              by_cases hf0 : 0 < st.completion
              · rw [if_pos hf0] at h
                injection h with h
                subst h
                have hcom := countP_set_eq (p := committedB) SPc.doneServed hget rfl
                have hch := countP_set_eq (p := chairB) SPc.doneServed hget rfl
                have hpo := countP_set_eq (p := postedB) SPc.doneServed hget rfl
                have hcs := countP_set_eq (p := consumedSummonB) SPc.doneServed hget rfl
                have hsvA := countP_set_add (p := servedB) SPc.doneServed hget rfl rfl
                refine ⟨?_, ?_, ?_, ?_, ?_, ?_, ?_, ?_, ?_⟩
                · exact ownerHolds_of_set SPc.doneServed h1 hget
                    (fun hh => absurd hh (by decide))
                · exact holdsOwner_of_set SPc.doneServed h2 hget
                    (fun hb => absurd hb (by decide))
                · dsimp only; rw [hcom]; exact h3
                · dsimp only; rw [hcom]; exact h4
                · exact incrLt_of_set SPc.doneServed h5 hget (by decide) hcom
                · dsimp only; rw [hch]; exact h6
                · dsimp only; rw [hpo]; exact h7
                · dsimp only; rw [hcs]; exact h8
                · dsimp only
                  rw [hsvA]
                  omega
              · rw [if_neg hf0] at h
                cases h
          | doneServed =>
              simp [stuStep, hget] at h
          | balkUnlock =>
              simp only [stuStep, hget] at h
              injection h with h
              subst h
              have hcom := countP_set_eq (p := committedB) SPc.doneBalked hget rfl
              have hch := countP_set_eq (p := chairB) SPc.doneBalked hget rfl
              have hpo := countP_set_eq (p := postedB) SPc.doneBalked hget rfl
              have hcs := countP_set_eq (p := consumedSummonB) SPc.doneBalked hget rfl
              have hsv := countP_set_eq (p := servedB) SPc.doneBalked hget rfl
              have howi : st.lockOwner = some i := h2 i SPc.balkUnlock hget rfl
              refine ⟨?_, ?_, ?_, ?_, ?_, ?_, ?_, ?_, ?_⟩
              · exact fun j hj => Option.noConfusion hj
              · intro j pc hj hh
                exact (no_holding_after_release SPc.doneBalked h2 hget howi
                  (by decide) j pc hj hh).elim
              · dsimp only; rw [hcom]; exact h3
              · dsimp only; rw [hcom]; exact h4
              · exact incrLt_of_set SPc.doneBalked h5 hget (by decide) hcom
              · dsimp only; rw [hch]; exact h6
              · dsimp only; rw [hpo]; exact h7
              · dsimp only; rw [hcs]; exact h8
              · dsimp only; rw [hsv]; exact h9
          | doneBalked =>
              simp [stuStep, hget] at h

/-- Every state reached by a schedule from an invariant state satisfies
the invariant. -/
theorem invExec {cap : Nat} :
    ∀ (ls : List Lbl) (st st1 : St), Inv cap st →
      exec cap ls st = some st1 → Inv cap st1
  | [], st, st1, hI, h => by
      simp only [exec] at h
      injection h with h
      subst h
      exact hI
  | l :: ls, st, st1, hI, h => by
      simp only [exec] at h
      cases hstep : step cap l st with
      | none => rw [hstep] at h; cases h
      | some st2 =>
          rw [hstep] at h
          exact invExec ls st2 st1 (invStep hI hstep) h

/-- Every reachable state of the simulation satisfies the invariant. -/
theorem invReachable {cap n : Nat} {st : St} (h : Reachable cap n st) :
    Inv cap st := by
  obtain ⟨ls, hls⟩ := h
  exact invExec ls _ st (invInit cap n) hls

/-! ### Concrete schedules used as evidence -/

/-- Schedule with `MAX_CHAIRS = 5`, `NUM_STUDENTS = 10`: students `0` and
`1` both seat themselves and post `presence`; the TA consumes one
`presence` and posts a summon, which student `0` takes through to the
completion wait; the TA posts the first completion, consumes the second
`presence` and posts the second summon, which student `1` takes through to
the completion wait while the TA is still helping. -/
def c1Sched : List Lbl :=
  List.replicate 7 (Lbl.stu 0) ++ List.replicate 7 (Lbl.stu 1) ++
  [Lbl.ta, Lbl.ta] ++ List.replicate 5 (Lbl.stu 0) ++
  [Lbl.ta, Lbl.ta, Lbl.ta, Lbl.ta] ++ List.replicate 5 (Lbl.stu 1)

/-- The state reached by `c1Sched`: the TA is in its helping step while
students `0` and `1` are both blocked at
`sem_wait(&consultation_finished_sem)`. -/
def c1Bad : St :=
  { chairs := 5, presence := 0, summon := 0, completion := 1, occupied := 0,
    lockOwner := none, taPc := .helping, taIter := 1,
    students := [.waitCompletion, .waitCompletion, .arriving, .arriving,
                 .arriving, .arriving, .arriving, .arriving, .arriving,
                 .arriving] }

/-- Schedule: student `0` runs alone up to (and including) its `check`
step, so it holds `count_mutex` with the guard already evaluated. -/
def c4Sched : List Lbl := [Lbl.stu 0, Lbl.stu 0]

/-- The state reached by `c4Sched`. -/
def c4Mid : St :=
  { chairs := 5, presence := 0, summon := 0, completion := 0, occupied := 0,
    lockOwner := some 0, taPc := .waitPresence, taIter := 0,
    students := [.check, .arriving, .arriving, .arriving, .arriving,
                 .arriving, .arriving, .arriving, .arriving, .arriving] }

/-- Schedule: student `0` runs alone through `lock`, `check` and the
increment, stopping at the `sem_wait(&waiting_room_chairs_sem)` step. -/
def c5Sched : List Lbl := List.replicate 4 (Lbl.stu 0)

/-- The state reached by `c5Sched`: student `0` is at the chairs-semaphore
wait while it still owns `count_mutex`. -/
def c5Mid : St :=
  { chairs := 5, presence := 0, summon := 0, completion := 0, occupied := 1,
    lockOwner := some 0, taPc := .waitPresence, taIter := 0,
    students := [.takeChair, .arriving, .arriving, .arriving, .arriving,
                 .arriving, .arriving, .arriving, .arriving, .arriving] }

/-- Schedule with two students: student `0` seats itself and posts
`presence`, the TA summons it, and the student consumes the summon,
stopping just before `sem_post(&waiting_room_chairs_sem)`. -/
def c6Sched : List Lbl :=
  List.replicate 7 (Lbl.stu 0) ++ [Lbl.ta, Lbl.ta, Lbl.stu 0]

/-- The state reached by `c6Sched`. -/
def c6Mid : St :=
  { chairs := 4, presence := 0, summon := 0, completion := 0, occupied := 1,
    lockOwner := none, taPc := .helping, taIter := 0,
    students := [.freeChair, .arriving] }

/-- Schedule with zero chairs: student `0` runs to its terminal balk. -/
def zeroSched : List Lbl := List.replicate 4 (Lbl.stu 0)

/-- The state reached by `zeroSched` in the zero-capacity simulation. -/
def zeroMid : St :=
  { chairs := 0, presence := 0, summon := 0, completion := 0, occupied := 0,
    lockOwner := none, taPc := .waitPresence, taIter := 0,
    students := [.doneBalked, .arriving] }

/-- A state in which student `0` is about to lock the mutex while all
chairs are taken (`num_students_in_chairs = MAX_CHAIRS = 5`). -/
def balkSt : St :=
  { chairs := 5, presence := 0, summon := 0, completion := 0, occupied := 5,
    lockOwner := none, taPc := .waitPresence, taIter := 0,
    students := [.lockA] }

/-! ### The zero-capacity invariant -/

/-- Invariant of the zero-capacity simulation: no handshake signal is ever
produced, `num_students_in_chairs` stays `0`, the TA never leaves the top
of its loop, and every student stays on the balk path. -/
def ZeroInv (st : St) : Prop :=
  st.occupied = 0 ∧ st.presence = 0 ∧ st.summon = 0 ∧ st.completion = 0 ∧
  st.taPc = .waitPresence ∧ st.taIter = 0 ∧
  ∀ (i : Nat) (pc : SPc), st.students[i]? = some pc → balkPathB pc = true

theorem zeroInvStep {l : Lbl} {st st1 : St} (hZ : ZeroInv st)
    (h : step 0 l st = some st1) : ZeroInv st1 := by
  obtain ⟨hocc, hpres, hsum, hcom, hta, hit, hstu⟩ := hZ
  cases l with
  | ta => simp [step, taStep, hta, hpres] at h
  | stu i =>
      simp only [step] at h
      cases hget : st.students[i]? with
      | none => simp [stuStep, hget] at h
      | some pc =>
          have hpc := hstu i pc hget
          cases pc
          case arriving =>
            simp only [stuStep, hget] at h
            injection h with h
            subst h
            refine ⟨hocc, hpres, hsum, hcom, hta, hit, ?_⟩
            intro j pc' hj
            by_cases hji : j = i
            · subst hji
              rw [getElem?_set_self _ hget] at hj
              injection hj with hj
              subst hj
              rfl
            · rw [getElem?_set_ne _ hji] at hj
              exact hstu j pc' hj
          case lockA =>
            simp only [stuStep, hget] at h
            by_cases how : st.lockOwner = none
            · rw [if_pos how] at h
              injection h with h
              subst h
              refine ⟨hocc, hpres, hsum, hcom, hta, hit, ?_⟩
              intro j pc' hj
              by_cases hji : j = i
              · subst hji
                rw [getElem?_set_self _ hget] at hj
                injection hj with hj
                subst hj
                rfl
              · rw [getElem?_set_ne _ hji] at hj
                exact hstu j pc' hj
            · rw [if_neg how] at h
              cases h
          case check =>
            simp only [stuStep, hget] at h
            rw [if_neg (by omega : ¬ st.occupied < ((0 : Nat) : Int))] at h
            injection h with h
            subst h
            refine ⟨hocc, hpres, hsum, hcom, hta, hit, ?_⟩
            intro j pc' hj
            by_cases hji : j = i
            · subst hji
              rw [getElem?_set_self _ hget] at hj
              injection hj with hj
              subst hj
              rfl
            · rw [getElem?_set_ne _ hji] at hj
              exact hstu j pc' hj
          case balkUnlock =>
            simp only [stuStep, hget] at h
            injection h with h
            subst h
            refine ⟨hocc, hpres, hsum, hcom, hta, hit, ?_⟩
            intro j pc' hj
            by_cases hji : j = i
            · subst hji
              rw [getElem?_set_self _ hget] at hj
              injection hj with hj
              subst hj
              rfl
            · rw [getElem?_set_ne _ hji] at hj
              exact hstu j pc' hj
          case doneBalked => simp [stuStep, hget] at h
          all_goals exact absurd hpc (by decide)

theorem zeroExec : ∀ (ls : List Lbl) (st st1 : St), ZeroInv st →
    exec 0 ls st = some st1 → ZeroInv st1
  | [], st, st1, hZ, h => by
      simp only [exec] at h
      injection h with h
      subst h
      exact hZ
  | l :: ls, st, st1, hZ, h => by
      simp only [exec] at h
      cases hstep : step 0 l st with
      | none => rw [hstep] at h; cases h
      | some st2 =>
          rw [hstep] at h
          exact zeroExec ls st2 st1 (zeroInvStep hZ hstep) h

theorem zeroInvInit (n : Nat) : ZeroInv (init 0 n) := by
  refine ⟨rfl, rfl, rfl, rfl, rfl, rfl, ?_⟩
  intro i pc hj
  simp only [init] at hj
  have hpc := List.eq_of_mem_replicate (List.getElem?_mem hj)
  subst hpc
  rfl

/-! ### The claims -/

/-- C1: the claimed invariant — at most one student ever in
`InConsultationState` concurrently with the TA in its helping step, with
each completion consumed by the student whose presence that iteration
consumed — fails on the code: the handshake semaphores carry no identity,
and the schedule `c1Sched` drives the reference configuration (5 chairs,
10 students) into the reachable state `c1Bad`, where the TA is in its
helping step while two students are simultaneously blocked at
`sem_wait(&consultation_finished_sem)`, the first-posted completion still
pending and up for grabs by either of them. -/
theorem twoInConsultationWhileTaHelping :
    Reachable 5 10 c1Bad ∧ c1Bad.taPc = .helping ∧
      2 ≤ c1Bad.students.countP inConsultB :=
  ⟨⟨c1Sched, by decide⟩, rfl, by decide⟩

/-- C2: signal discipline of the TA loop.  In every reachable state the
completion posts never exceed the summon posts, the summon posts never
exceed the presences consumed, the presences consumed never exceed the
presences posted by students, and each iteration closes the gap: whenever
the TA is back at the top of its loop the three TA-side counts are equal,
and if additionally no posted presence is pending, presences posted equal
completions posted. -/
theorem taSignalConservation :
    ∀ (cap n : Nat) (st : St), Reachable cap n st →
      completionPosts st ≤ summonPosts st ∧
      summonPosts st ≤ presenceConsumed st ∧
      presenceConsumed st ≤ completionPosts st + 1 ∧
      presenceConsumed st ≤ presencePosted st ∧
      (st.taPc = .waitPresence →
        presenceConsumed st = summonPosts st ∧
        summonPosts st = completionPosts st ∧
        (st.presence = 0 → presencePosted st = completionPosts st)) := by
  intro cap n st h
  have hI := invReachable h
  have h7 := hI.presEq
  dsimp only [presenceConsumed, summonPosts, completionPosts, presencePosted] at h7 ⊢
  refine ⟨?_, ?_, ?_, ?_, ?_⟩
  · omega
  · cases hpc : st.taPc <;> simp [taSummonInd, taConsumedInd]
  · cases hpc : st.taPc <;> simp [taConsumedInd]
  · omega
  · intro hw
    rw [hw] at h7 ⊢
    dsimp only [taConsumedInd, taSummonInd] at h7 ⊢
    omega

/-- C2 witness: the theorem applied to the initial state of the reference
configuration, where all counts are zero. -/
theorem taSignalConservation_apply :
    summonPosts (init 5 10) ≤ presenceConsumed (init 5 10) ∧
    presenceConsumed (init 5 10) = summonPosts (init 5 10) ∧
    presencePosted (init 5 10) = completionPosts (init 5 10) :=
  ⟨(taSignalConservation 5 10 (init 5 10) ⟨[], rfl⟩).2.1,
   ((taSignalConservation 5 10 (init 5 10) ⟨[], rfl⟩).2.2.2.2 rfl).1,
   ((taSignalConservation 5 10 (init 5 10) ⟨[], rfl⟩).2.2.2.2 rfl).2.2 rfl⟩

/-- C3: in every reachable state the `num_students_in_chairs` counter is
between `0` and the chair capacity. -/
theorem occupiedWithinBounds :
    ∀ (cap n : Nat) (st : St), Reachable cap n st →
      0 ≤ st.occupied ∧ st.occupied ≤ (cap : Int) := by
  intro cap n st h
  have hI := invReachable h
  have h3 := hI.occEq
  have h4 := hI.occLe
  omega

/-- C3 witness: the bounds at the initial state of the reference
configuration. -/
theorem occupiedWithinBounds_apply :
    0 ≤ (init 5 10).occupied ∧ (init 5 10).occupied ≤ (5 : Int) :=
  occupiedWithinBounds 5 10 (init 5 10) ⟨[], rfl⟩

/-- C4: the admission check is one atomic critical section under
`count_mutex`: in every reachable state at most one student is inside any
of the mutex-protected sections; a student at the check whose guard fails
steps to the balk branch changing no shared state (only its own program
counter); a student at the check whose guard holds steps to the increment;
and the committed count can consequently never exceed the capacity. -/
theorem tryReserveAtomicCommit :
    ∀ (cap n : Nat) (st : St), Reachable cap n st →
      (∀ (i j : Nat) (pci pcj : SPc), st.students[i]? = some pci →
        st.students[j]? = some pcj → holdingB pci = true →
        holdingB pcj = true → i = j) ∧
      (∀ i : Nat, st.students[i]? = some .check → (cap : Int) ≤ st.occupied →
        stuStep cap i st
          = some { st with students := st.students.set i .balkUnlock }) ∧
      (∀ i : Nat, st.students[i]? = some .check → st.occupied < (cap : Int) →
        stuStep cap i st
          = some { st with students := st.students.set i .incr }) ∧
      st.occupied ≤ (cap : Int) := by
  intro cap n st h
  have hI := invReachable h
  refine ⟨?_, ?_, ?_, ?_⟩
  · intro i j pci pcj hi hj hhi hhj
    have hoi := hI.holdsOwner i pci hi hhi
    have hoj := hI.holdsOwner j pcj hj hhj
    rw [hoi] at hoj
    exact Option.some.inj hoj
  · intro i hi hge
    simp only [stuStep, hi]
    rw [if_neg (not_lt.mpr hge)]
  · intro i hi hlt
    simp only [stuStep, hi]
    rw [if_pos hlt]
  · have h3 := hI.occEq
    have h4 := hI.occLe
    omega

/-- C4 witness: in the reachable state `c4Mid` (student 0 holding the
mutex at the check with `occupied = 0 < 5`) the check step commits, and
the bound holds. -/
theorem tryReserveAtomicCommit_apply :
    stuStep 5 0 c4Mid = some { c4Mid with students := c4Mid.students.set 0 .incr } ∧
    c4Mid.occupied ≤ (5 : Int) :=
  ⟨(tryReserveAtomicCommit 5 10 c4Mid ⟨c4Sched, by decide⟩).2.2.1 0 (by decide)
     (by decide),
   (tryReserveAtomicCommit 5 10 c4Mid ⟨c4Sched, by decide⟩).2.2.2⟩

/-- C5 counterexample: contrary to the claim that the blocking `acquire()`
is called outside the `tryReserve` critical section, the code reaches the
state `c5Mid` in which student 0 is at the
`sem_wait(&waiting_room_chairs_sem)` step while still owning
`count_mutex` (the `sem_wait` at line 71 sits between the lock at line 68
and the unlock at line 73). -/
theorem acquireInsideCriticalSection :
    Reachable 5 10 c5Mid ∧ c5Mid.students[0]? = some .takeChair ∧
      c5Mid.lockOwner = some 0 :=
  ⟨⟨c5Sched, by decide⟩, by decide, rfl⟩

/-- C5 amended: the `sem_wait` on the chairs semaphore is executed inside
the critical section, but it can never actually block there: in every
reachable state, a student at that step finds the chairs semaphore
strictly positive, so the wait is enabled and completes at once; every
other operation in the student body is a non-blocking update. -/
theorem chairWaitNeverBlocks :
    ∀ (cap n : Nat) (st : St), Reachable cap n st →
      ∀ i : Nat, st.students[i]? = some .takeChair → 0 < st.chairs := by
  intro cap n st h i hi
  have hI := invReachable h
  have hchair := hI.chairsEq
  have hocc := hI.occLe
  have hlt : st.students.countP chairB < st.students.countP committedB :=
    countP_lt_of_witness
      (by intro x hx; cases x <;> revert hx <;> decide)
      st.students i SPc.takeChair hi rfl rfl
  omega

/-- C5 amended witness: in the reachable state `c5Mid` the chairs
semaphore is positive at student 0's wait. -/
theorem chairWaitNeverBlocks_apply : 0 < c5Mid.chairs :=
  chairWaitNeverBlocks 5 10 c5Mid ⟨c5Sched, by decide⟩ 0 (by decide)

/-- C6: the chair is vacated at summon time, not at consultation end.
Upon consuming a summon the student's next steps are, in program order:
post the chairs semaphore (`release`), lock, decrement
`num_students_in_chairs`, unlock, and only then block on the completion
wait; and in every reachable state the chair and occupancy accountings
count no student at the completion wait — the chair slot is free while a
student is in `InConsultationState`. -/
theorem summonVacatesChair :
    ∀ (cap n : Nat) (st : St), Reachable cap n st →
      (∀ i : Nat, st.students[i]? = some .waitSummon → 0 < st.summon →
        stuStep cap i st
          = some { st with students := st.students.set i .freeChair,
                           summon := st.summon - 1 }) ∧
      (∀ i : Nat, st.students[i]? = some .freeChair →
        stuStep cap i st
          = some { st with students := st.students.set i .lockB,
                           chairs := st.chairs + 1 }) ∧
      (∀ i : Nat, st.students[i]? = some .decr →
        stuStep cap i st
          = some { st with students := st.students.set i .unlockB,
                           occupied := st.occupied - 1 }) ∧
      (∀ i : Nat, st.students[i]? = some .unlockB →
        stuStep cap i st
          = some { st with students := st.students.set i .waitCompletion,
                           lockOwner := none }) ∧
      st.chairs + st.students.countP chairB = cap ∧
      st.occupied = (st.students.countP committedB : Int) ∧
      chairB .waitCompletion = false ∧ committedB .waitCompletion = false := by
  intro cap n st h
  have hI := invReachable h
  refine ⟨?_, ?_, ?_, ?_, hI.chairsEq, hI.occEq, rfl, rfl⟩
  · intro i hi hs
    simp only [stuStep, hi]
    rw [if_pos hs]
  · intro i hi
    simp only [stuStep, hi]
  · intro i hi
    simp only [stuStep, hi]
  · intro i hi
    simp only [stuStep, hi]

/-- C6 witness: in the reachable state `c6Mid` (student 0 has just
consumed its summon) the next step posts the chairs semaphore, and the
chair accounting holds. -/
theorem summonVacatesChair_apply :
    stuStep 5 0 c6Mid
      = some { c6Mid with students := c6Mid.students.set 0 .lockB,
                          chairs := c6Mid.chairs + 1 } ∧
    c6Mid.chairs + c6Mid.students.countP chairB = 5 :=
  ⟨(summonVacatesChair 5 2 c6Mid ⟨c6Sched, by decide⟩).2.1 0 (by decide),
   (summonVacatesChair 5 2 c6Mid ⟨c6Sched, by decide⟩).2.2.2.2.1⟩

/-- C7: a balking student is a complete no-op on shared state: from any
state in which student `i` is about to lock the mutex, the mutex is free
and the guard fails (`occupied ≥ capacity`), running the student's three
steps (lock, failed check, unlock) yields exactly the original state with
only the student's own program counter moved to its terminal balk — all
four semaphores, `num_students_in_chairs` and the mutex are unchanged. -/
theorem balkLeavesSharedStateUnchanged :
    ∀ (cap : Nat) (st : St) (i : Nat), st.students[i]? = some .lockA →
      st.lockOwner = none → (cap : Int) ≤ st.occupied →
      ((stuStep cap i st).bind (stuStep cap i)).bind (stuStep cap i)
        = some { st with students := st.students.set i .doneBalked } := by
  intro cap st i hi how hge
  have e1 : stuStep cap i st
      = some { st with students := st.students.set i SPc.check,
                       lockOwner := some i } := by
    simp only [stuStep, hi]
    rw [if_pos how]
  have hi2 : (st.students.set i SPc.check)[i]? = some SPc.check :=
    getElem?_set_self _ hi
  have e2 : stuStep cap i
      { st with students := st.students.set i SPc.check, lockOwner := some i }
      = some { st with students := st.students.set i SPc.balkUnlock,
                       lockOwner := some i } := by
    simp only [stuStep, hi2]
    rw [if_neg (not_lt.mpr hge)]
    simp [List.set_set]
  have hi3 : (st.students.set i SPc.balkUnlock)[i]? = some SPc.balkUnlock :=
    getElem?_set_self _ hi
  have e3 : stuStep cap i
      { st with students := st.students.set i SPc.balkUnlock,
                lockOwner := some i }
      = some { st with students := st.students.set i SPc.doneBalked,
                       lockOwner := none } := by
    simp only [stuStep, hi3]
    simp [List.set_set]
  rw [e1, Option.some_bind, e2, Option.some_bind, e3, how]

/-- C7 witness: in `balkSt` (one student, all five admission slots taken)
the three balk steps produce exactly `balkSt` with the student terminal. -/
theorem balkLeavesSharedStateUnchanged_apply :
    ((stuStep 5 0 balkSt).bind (stuStep 5 0)).bind (stuStep 5 0)
      = some { balkSt with students := balkSt.students.set 0 .doneBalked } :=
  balkLeavesSharedStateUnchanged 5 balkSt 0 (by decide) rfl (by decide)

/-- C8: with zero chairs every student balks: in every reachable state of
the zero-capacity simulation `num_students_in_chairs` is `0`, no
`presence`, `summon` or `completion` signal has ever been posted, the TA
has never left its `sem_wait(&student_present_for_ta_sem)`, and every
student is on the balk path (arrival, lock, failed check, balk unlock, or
terminal balked). -/
theorem zeroCapacityAllBalk :
    ∀ (n : Nat) (st : St), Reachable 0 n st →
      st.occupied = 0 ∧ st.presence = 0 ∧ st.summon = 0 ∧ st.completion = 0 ∧
      st.taPc = .waitPresence ∧ st.taIter = 0 ∧
      ∀ (i : Nat) (pc : SPc), st.students[i]? = some pc →
        balkPathB pc = true := by
  intro n st h
  obtain ⟨ls, hls⟩ := h
  exact zeroExec ls _ st (zeroInvInit n) hls

/-- C8 witness: in the reachable zero-capacity state `zeroMid`, the
counter is zero, no presence was ever posted, and student 0 ended
balked. -/
theorem zeroCapacityAllBalk_apply :
    zeroMid.occupied = 0 ∧ zeroMid.presence = 0 ∧
    zeroMid.taPc = .waitPresence ∧ balkPathB .doneBalked = true :=
  ⟨(zeroCapacityAllBalk 2 zeroMid ⟨zeroSched, by decide⟩).1,
   (zeroCapacityAllBalk 2 zeroMid ⟨zeroSched, by decide⟩).2.1,
   (zeroCapacityAllBalk 2 zeroMid ⟨zeroSched, by decide⟩).2.2.2.2.1,
   (zeroCapacityAllBalk 2 zeroMid ⟨zeroSched, by decide⟩).2.2.2.2.2.2 0
     .doneBalked (by decide)⟩

/-- C9: an invalid configuration (capacity ≤ 0 or student count < 0)
makes `newSimulation` fail fast with a configuration error, and no actor
is ever started from the failed construction. -/
theorem invalidConfigFailsFast :
    ∀ chairCapacity studentCount : Int,
      (chairCapacity ≤ 0 ∨ studentCount < 0) →
      newSimulation chairCapacity studentCount = .error .invalidConfig ∧
      startSimulation (newSimulation chairCapacity studentCount) = none := by
  intro c s h
  have he : newSimulation c s = .error .invalidConfig := by
    simp only [newSimulation, if_pos h]
  exact ⟨he, by rw [he]; rfl⟩

/-- C9 witness: capacity `0` (invalid) with five students. -/
theorem invalidConfigFailsFast_apply :
    newSimulation 0 5 = .error .invalidConfig ∧
    startSimulation (newSimulation 0 5) = none :=
  invalidConfigFailsFast 0 5 (Or.inl (by decide))

/-- C10: `random_int` is total and range-correct: for every nonnegative
`rand()` value and any pair of integers, the result lies between the
smaller and the larger argument, and when `min > max` the arguments are
swapped so the call agrees with `random_int(max, min)`. -/
theorem randomIntRangeCorrect :
    ∀ (r : Nat) (min max : Int),
      min ⊓ max ≤ random_int r min max ∧ random_int r min max ≤ min ⊔ max ∧
      (max < min → random_int r min max = random_int r max min) := by
  intro r mn mx
  by_cases hc : mn > mx
  · have hmod0 : 0 ≤ (r : Int) % (mn - mx + 1) :=
      Int.emod_nonneg _ (by omega)
    have hmodlt : (r : Int) % (mn - mx + 1) < mn - mx + 1 :=
      Int.emod_lt_of_pos _ (by omega)
    refine ⟨?_, ?_, ?_⟩
    · simp only [random_int, if_pos hc]
      have hm : mn ⊓ mx = mx := inf_eq_right.mpr (le_of_lt hc)
      rw [hm]
      omega
    · simp only [random_int, if_pos hc]
      have hm : mn ⊔ mx = mn := sup_eq_left.mpr (le_of_lt hc)
      rw [hm]
      omega
    · intro _
      simp only [random_int, if_pos hc, if_neg (by omega : ¬ mx > mn)]
  · have hle : mn ≤ mx := le_of_not_lt hc
    have hmod0 : 0 ≤ (r : Int) % (mx - mn + 1) :=
      Int.emod_nonneg _ (by omega)
    have hmodlt : (r : Int) % (mx - mn + 1) < mx - mn + 1 :=
      Int.emod_lt_of_pos _ (by omega)
    refine ⟨?_, ?_, ?_⟩
    · simp only [random_int, if_neg hc]
      have hm : mn ⊓ mx = mn := inf_eq_left.mpr hle
      rw [hm]
      omega
    · simp only [random_int, if_neg hc]
      have hm : mn ⊔ mx = mx := sup_eq_right.mpr hle
      rw [hm]
      omega
    · intro h'
      exact absurd h' hc

/-- C10 witness: `random_int 7 5 2` (reversed bounds, `rand() = 7`) equals
`random_int 7 2 5` and lies in `[2, 5]`. -/
theorem randomIntRangeCorrect_apply :
    (2 : Int) < 5 ∧ random_int 7 5 2 = random_int 7 2 5 ∧
    (5 : Int) ⊓ 2 ≤ random_int 7 5 2 :=
  ⟨by decide, (randomIntRangeCorrect 7 5 2).2.2 (by decide),
   (randomIntRangeCorrect 7 5 2).1⟩

end TaSim
